import Mathlib

/-!
Shallow embedding of the attention-control subsystem of `src/main.py`
(prompt-to-prompt editing for a text-to-image diffusion model).

Tensor entries are modelled as rationals (`Val`); a tensor is a function
from its indices to `Val`, with any shape component that the code branches
on passed explicitly.  GPU library calls (`torch.nn.functional` pooling and
interpolation) are outside the repository and enter the model only as
parameters.  `LOW_RESOURCE` is the module-level constant of `main.py`
(line 18), fixed to `False` in the source.
-/

abbrev Val := ℚ

/-- LOW_RESOURCE flag, `False` in `main.py` line 18. -/
def LOW_RESOURCE : Bool := false

/-- MAX_NUM_WORDS constant, 77 in `main.py` line 21. -/
def MAX_NUM_WORDS : Nat := 77

/-- Network stage label (`place_in_unet`), one of "down", "mid", "up". -/
inductive Place where
  | down
  | mid
  | up
deriving DecidableEq, Repr

/-- Python `int()` on a rational: truncation toward zero. -/
def pyInt (x : ℚ) : Int := if 0 ≤ x then ⌊x⌋ else ⌈x⌉

/-- A buffered attention tensor for the `AttentionStore`: `shape1` is
`attn.shape[1]` (the axis the `32**2` gate of `forward` inspects) and `val`
the flattened entries. -/
structure StoreTensor where
  shape1 : Nat
  val : Nat → Val

/-- Elementwise `+=` of two buffered tensors (shapes coincide in every run,
so the left shape is kept). -/
def tensorAdd (a b : StoreTensor) : StoreTensor :=
  ⟨a.shape1, fun i => a.val i + b.val i⟩

/-- The six-key store: a map from `(place_in_unet, is_cross)` to the ordered
list of tensors recorded at that key, mirroring the keys
`{down,mid,up}_{cross,self}` of `get_empty_store` (`main.py` 118-127). -/
abbrev StoreMap := Place → Bool → List StoreTensor

/-- `get_empty_store`: every key maps to an empty list. -/
def get_empty_store : StoreMap := fun _ _ => []

/-- State of an `AttentionStore` controller: the counters inherited from
`AttentionControl.__init__` / `AttentionStore.__init__` (`main.py` 104-107,
156-159).  `attention_store = none` models the empty dict `{}`;
`num_att_layers` starts at `-1` and is set once by the external
registration hook (out of scope, `ptp_utils`). -/
structure StoreState where
  cur_step : Nat
  cur_att_layer : Nat
  num_att_layers : Int
  step_store : StoreMap
  attention_store : Option StoreMap

/-- Initial `AttentionStore` state; `n` is the value the external
registration hook assigns to `num_att_layers` (the constructor itself sets
`-1`). -/
def initState (n : Int) : StoreState :=
  { cur_step := 0
    cur_att_layer := 0
    num_att_layers := n
    step_store := get_empty_store
    attention_store := none }

/-- `num_uncond_att_layers` property (`main.py` 77-79):
`self.num_att_layers if LOW_RESOURCE else 0`. -/
def num_uncond_att_layers (num_att_layers : Int) : Int :=
  if LOW_RESOURCE then num_att_layers else 0

/-- `AttentionStore.forward` effect on the state (`main.py` 129-133): append
`attn` to `step_store[key]` only when `attn.shape[1] <= 32**2`. -/
def AttentionStore.forward (s : StoreState) (attn : StoreTensor)
    (is_cross : Bool) (place_in_unet : Place) : StoreState :=
  if attn.shape1 ≤ 32 ^ 2 then
    { s with step_store := fun pl ic =>
        if pl = place_in_unet ∧ ic = is_cross then s.step_store pl ic ++ [attn]
        else s.step_store pl ic }
  else s

/-- `AttentionStore.between_steps` (`main.py` 135-142): on the first boundary
the cumulative store becomes the step buffer; afterwards each cumulative
entry receives `+=` of the matching step-buffer entry (the Python loop runs
over `range(len(attention_store[key]))`; buffers have equal length per key
in every run, and Python would raise IndexError were the step buffer
shorter).  The step buffer is then reset to the empty store. -/
def AttentionStore.between_steps (s : StoreState) : StoreState :=
  let store' : StoreMap :=
    match s.attention_store with
    | none => s.step_store
    | some acc => fun pl ic =>
        List.zipWith tensorAdd (acc pl ic) (s.step_store pl ic)
  { s with attention_store := some store', step_store := get_empty_store }

/-- `AttentionControl.__call__` state effect for the `AttentionStore`
subclass (`main.py` 85-98): run `forward` when
`cur_att_layer >= num_uncond_att_layers` (the tensor argument here is the
one `forward` receives — in standard mode the conditional half, whose
`shape[1]` equals the full tensor's), increment the layer counter, and at
the threshold reset it, advance the step counter and call `between_steps`. -/
def AttentionStore.call (s : StoreState) (attn : StoreTensor)
    (is_cross : Bool) (place_in_unet : Place) : StoreState :=
  let s0 :=
    if (s.cur_att_layer : Int) ≥ num_uncond_att_layers s.num_att_layers then
      AttentionStore.forward s attn is_cross place_in_unet
    else s
  let s1 := { s0 with cur_att_layer := s0.cur_att_layer + 1 }
  if (s1.cur_att_layer : Int)
      = s1.num_att_layers + num_uncond_att_layers s1.num_att_layers then
    AttentionStore.between_steps
      { s1 with cur_att_layer := 0, cur_step := s1.cur_step + 1 }
  else s1

/-- `AttentionStore.reset` (`main.py` 151-154). -/
def AttentionStore.reset (s : StoreState) : StoreState :=
  { s with cur_step := 0
           cur_att_layer := 0
           step_store := get_empty_store
           attention_store := none }

/-- `AttentionStore.get_average_attention` (`main.py` 144-149): divide every
cumulative tensor by `cur_step`; on the empty dict the comprehension yields
the empty dict (`none`). -/
def AttentionStore.get_average_attention (s : StoreState) : Option StoreMap :=
  match s.attention_store with
  | none => none
  | some acc => some (fun pl ic =>
      (acc pl ic).map (fun t => ⟨t.shape1, fun i => t.val i / (s.cur_step : Val)⟩))

/-- States of an `AttentionStore` controller reachable in a run: the freshly
constructed-and-registered state, interception calls, and resets. -/
inductive Reachable : StoreState → Prop where
  | init (n : Int) : Reachable (initState n)
  | call (s : StoreState) (attn : StoreTensor) (ic : Bool) (pl : Place) :
      Reachable s → Reachable (AttentionStore.call s attn ic pl)
  | reset (s : StoreState) : Reachable s → Reachable (AttentionStore.reset s)

/-- Attention map of the reference prompt after the reshape of
`AttentionControlEdit.forward`: indices (head, query, key). -/
abbrev Tensor3 := Nat → Nat → Nat → Val

/-- Batched attention map: indices (batch/variant, head, query, key). -/
abbrev Tensor4 := Nat → Nat → Nat → Nat → Val

/-- Flat attention tensor as the interception hook receives it: indices
(flattened batch×heads axis, remaining axes flattened). -/
abbrev TensorF := Nat → Nat → Val

/-- `AttentionControl.__call__` tensor effect (`main.py` 85-98): when the
layer counter has passed the unconditional-layer offset, standard mode
(`LOW_RESOURCE = False`) rewrites only `attn[h // 2:]` through `forward`
while low-resource mode rewrites the whole tensor; `hsz` is
`attn.shape[0]`. -/
def AttentionControl.call
    (forward : TensorF → Bool → Place → TensorF)
    (cur_att_layer : Nat) (num_att_layers : Int) (hsz : Nat)
    (attn : TensorF) (is_cross : Bool) (place_in_unet : Place) : TensorF :=
  if (cur_att_layer : Int) ≥ num_uncond_att_layers num_att_layers then
    if LOW_RESOURCE then forward attn is_cross place_in_unet
    else fun b i =>
      if b < hsz / 2 then attn b i
      else forward (fun b2 i2 => attn (b2 + hsz / 2) i2) is_cross place_in_unet
        (b - hsz / 2) i
  else attn

/-- Counter fields of `AttentionControl` (`main.py` 104-107). -/
structure CtrlCounters where
  cur_step : Nat
  cur_att_layer : Nat
  num_att_layers : Int
deriving DecidableEq, Repr

/-- Counter effect of one `AttentionControl.__call__` (`main.py` 93-97):
increment the layer counter; at the threshold
`num_att_layers + num_uncond_att_layers` reset it, advance the step counter
and invoke `between_steps`.  The returned flag records whether
`between_steps` was invoked (it is called at most once per interception;
its state effect for the store subclass is `AttentionStore.call`). -/
def AttentionControl.callCounters (s : CtrlCounters) : CtrlCounters × Bool :=
  let s1 : CtrlCounters := { s with cur_att_layer := s.cur_att_layer + 1 }
  if (s1.cur_att_layer : Int)
      = s1.num_att_layers + num_uncond_att_layers s1.num_att_layers then
    ({ s1 with cur_att_layer := 0, cur_step := s1.cur_step + 1 }, true)
  else (s1, false)

/-- Python exception kinds raised by the subsystem. -/
inductive PyExc where
  | notImplementedError
deriving DecidableEq, Repr

/-- Abstract `AttentionControl.forward` (`main.py` 81-83): raises
`NotImplementedError`. -/
def AttentionControl.forwardAbstract (attn : TensorF) (is_cross : Bool)
    (place_in_unet : Place) : Except PyExc TensorF :=
  Except.error PyExc.notImplementedError

/-- Abstract `AttentionControlEdit.replace_cross_attention`
(`main.py` 176-178): raises `NotImplementedError`. -/
def AttentionControlEdit.replaceCrossAbstract (attn_base : Tensor3)
    (att_replace : Tensor4) : Except PyExc Tensor4 :=
  Except.error PyExc.notImplementedError

/-- `AttentionControlEdit.replace_self_attention` (`main.py` 169-174):
broadcast the reference map over the edited variants when the query axis
`att_replace.shape[2]` (`qsize`) is at most `16**2`, else return the edited
maps unchanged. -/
def AttentionControlEdit.replace_self_attention (qsize : Nat)
    (attn_base : Tensor3) (att_replace : Tensor4) : Tensor4 :=
  if qsize ≤ 16 ^ 2 then fun _b hd p w => attn_base hd p w else att_replace

/-- The `self_replace_steps` argument (`main.py` 202, 208-209): a bare float
`f` is turned into the pair `(0, f)`. -/
def selfReplaceSpecPair (spec : ℚ ⊕ ℚ × ℚ) : ℚ × ℚ :=
  match spec with
  | Sum.inl f => (0, f)
  | Sum.inr p => p

/-- `num_self_replace` as computed in `AttentionControlEdit.__init__`
(`main.py` 210-211): `int(num_steps * fraction)` for both endpoints. -/
def num_self_replace (num_steps : Nat) (spec : ℚ ⊕ ℚ × ℚ) : Int × Int :=
  (pyInt ((num_steps : ℚ) * (selfReplaceSpecPair spec).1),
   pyInt ((num_steps : ℚ) * (selfReplaceSpecPair spec).2))

/-- `AttentionControlEdit.forward` (`main.py` 180-197) on the reshaped view
`(batch_size, h, ...)` of the tensor (the surrounding `reshape` pair is the
row-major bijection between the flat and batched layouts).
`cross_replace_alpha` is indexed (step, edited-variant, token), the
broadcast of the stored `(steps, batch-1, 1, 1, 77)` tensor;
`replace_cross_attention` is the subclass's strategy; `qsize` is the query
axis length `attn.shape[2]` of the edited maps.  Variant 0 is the
reference; rows `1..` are the edited variants. -/
def AttentionControlEdit.forward
    (num_self_replace : Int × Int)
    (cross_replace_alpha : Nat → Nat → Nat → Val)
    (replace_cross_attention : Tensor3 → Tensor4 → Tensor4)
    (cur_step : Nat) (is_cross : Bool) (qsize : Nat)
    (attn : Tensor4) : Tensor4 :=
  if is_cross = true ∨
      (num_self_replace.1 ≤ (cur_step : Int) ∧
        (cur_step : Int) < num_self_replace.2) then
    let attn_base : Tensor3 := attn 0
    let attn_repalce : Tensor4 := fun i => attn (i + 1)
    let tail : Tensor4 :=
      if is_cross then
        fun i hd p w =>
          replace_cross_attention attn_base attn_repalce i hd p w
              * cross_replace_alpha cur_step i w
            + (1 - cross_replace_alpha cur_step i w) * attn_repalce i hd p w
      else AttentionControlEdit.replace_self_attention qsize attn_base attn_repalce
    fun b hd p w => if b = 0 then attn 0 hd p w else tail (b - 1) hd p w
  else attn

/-- `AttentionReplace.replace_cross_attention` (`main.py` 217-218):
`torch.einsum('hpw,bwn->bhpn', attn_base, self.mapper)`, the contraction of
the reference map with the per-variant replacement matrix over the 77-token
axis. -/
def AttentionReplace.replace_cross_attention (mapper : Nat → Nat → Nat → Val)
    (attn_base : Tensor3) (att_replace : Tensor4) : Tensor4 :=
  fun b hd p n =>
    ∑ w ∈ Finset.range MAX_NUM_WORDS, attn_base hd p w * mapper b w n

/-- `AttentionReweight.replace_cross_attention` (`main.py` 258-264): feed
`attn_base` through the optional wrapped prior controller, then multiply by
`equalizer[:, None, None, :]` (broadcast over heads and query positions;
when no prior is attached `attn_base[None, :, :, :]` broadcasts the
reference map over the variant axis). -/
def AttentionReweight.replace_cross_attention
    (equalizer : Nat → Nat → Val)
    (prev_controller : Option (Tensor3 → Tensor4 → Tensor4))
    (attn_base : Tensor3) (att_replace : Tensor4) : Tensor4 :=
  let base : Tensor4 :=
    match prev_controller with
    | none => fun _b hd p w => attn_base hd p w
    | some prev => prev attn_base att_replace
  fun b hd p w => base b hd p w * equalizer b w

/-- `get_equalizer` (`main.py` 281-290) for a single reweight value: start
from all ones and, for each selected word, overwrite its token positions
with `value`.  `word_inds` holds the `ptp_utils.get_word_inds` result for
each selected word (tokenizer lookup is external to this file). -/
def get_equalizer (word_inds : List (List Nat)) (value : Val) :
    Nat → Nat → Val :=
  word_inds.foldl
    (fun eq inds => fun b w => if w ∈ inds then value else eq b w)
    (fun _ _ => (1 : Val))

/-- `LocalBlend.__call__` (`main.py` 35-52) for the two-prompt batch of the
source: `m v p` is the pooled, upsampled and per-sample normalized
attention map of variant `v` at spatial position `p` (the output of lines
37-48, whose pooling and interpolation are `torch.nn.functional` library
calls); line 49 thresholds it with `gt`, line 50 unions the reference and
edited masks, and line 51 composites
`x_t = x_t[:1] + mask * (x_t - x_t[:1])`. -/
def LocalBlend.call (threshold : Val) (m : Nat → Nat → Val)
    (x_t : Nat → Nat → Val) : Nat → Nat → Val :=
  let mask : Nat → Nat → Bool := fun v p => decide (threshold < m v p)
  let maskU : Nat → Bool := fun p => mask 0 p || mask 1 p
  fun b p => x_t 0 p + (if maskU p then (1 : Val) else 0) * (x_t b p - x_t 0 p)

/-- `AttentionControlEdit.step_callback` (`main.py` 164-167): identity when
no `LocalBlend` is attached, otherwise the attached blend (represented by
its threshold) composites the latent; `m` is the normalized map the blend
derives from the accumulated cross-attention. -/
def AttentionControlEdit.step_callback (local_blend : Option Val)
    (m : Nat → Nat → Val) (x_t : Nat → Nat → Val) : Nat → Nat → Val :=
  match local_blend with
  | none => x_t
  | some threshold => LocalBlend.call threshold m x_t

/-- One completed diffusion step of an `AttentionStore` run in which the
step buffer received the sequences `rec` (what the step's
`AttentionStore.forward` calls appended), followed by the boundary of
`__call__` (`main.py` 93-97): the layer counter resets, the step counter
advances, and `between_steps` folds the buffer into the cumulative store. -/
def recordStep (rec : StoreMap) (s : StoreState) : StoreState :=
  AttentionStore.between_steps
    { s with step_store := rec, cur_att_layer := 0, cur_step := s.cur_step + 1 }

/-- `m` completed steps, each recording the same buffered sequences. -/
def iterRecord (rec : StoreMap) : Nat → StoreState → StoreState
  | 0, s => s
  | m + 1, s => recordStep rec (iterRecord rec m s)

/-- Tensor `a` is the elementwise `c`-fold multiple of tensor `b`, with the
same buffered shape. -/
def TensorScaled (c : Nat) (a b : StoreTensor) : Prop :=
  a.shape1 = b.shape1 ∧ ∀ i, a.val i = (c : Val) * b.val i

/-- Concrete batched attention map used to instantiate theorems. -/
def exAttn4 : Tensor4 := fun b _ _ _ => (b : Val) + 1

/-- Concrete all-ones activation schedule. -/
def exAlphaOne : Nat → Nat → Nat → Val := fun _ _ _ => 1

/-- Concrete identity replacement mapper on the 77-token axis. -/
def exIdMapper : Nat → Nat → Nat → Val := fun _ w n => if w = n then 1 else 0

/-- Concrete prior controller acting as the identity on the reference map. -/
def exIdPrior : Tensor3 → Tensor4 → Tensor4 := fun base _ => fun _ hd p w => base hd p w

/-- Concrete cross-attention strategy returning the edited maps. -/
def exRC : Tensor3 → Tensor4 → Tensor4 := fun _ r => r

/-- Concrete reference attention map. -/
def exBase3 : Tensor3 := fun hd p w => (hd : Val) + (p : Val) + (w : Val)

/-- Concrete per-step recording: one small tensor at the `down_cross` key. -/
def exRec : StoreMap := fun pl ic =>
  if pl = Place.down ∧ ic = true then [⟨9, fun i => (i : Val)⟩] else []

/-- Concrete per-layer transform adding one to every entry. -/
def exFwd : TensorF → Bool → Place → TensorF := fun t _ _ => fun b i => t b i + 1

/-- Concrete flat attention tensor. -/
def exAttnF : TensorF := fun b i => (b : Val) * 10 + (i : Val)

/-- Concrete normalized local-blend maps for two variants. -/
def exMap2 : Nat → Nat → Val := fun v p => if v = 0 ∧ p = 0 then 1 else 0

/-- Concrete latent tensor. -/
def exLatent : Nat → Nat → Val := fun b p => (b : Val) * 100 + (p : Val)

/-- C9: invoking the abstract per-layer transform (`forward`) on the base
control class, or the abstract cross-attention replacement
(`replace_cross_attention`) on the editing base class, signals a
not-implemented-kind condition rather than returning a value. -/
theorem C9_abstract_raise (attn : TensorF) (is_cross : Bool) (pl : Place)
    (attn_base : Tensor3) (att_replace : Tensor4) :
    AttentionControl.forwardAbstract attn is_cross pl
        = Except.error PyExc.notImplementedError ∧
      AttentionControlEdit.replaceCrossAbstract attn_base att_replace
        = Except.error PyExc.notImplementedError ∧
      (∀ v, AttentionControl.forwardAbstract attn is_cross pl ≠ Except.ok v) ∧
      (∀ v, AttentionControlEdit.replaceCrossAbstract attn_base att_replace
        ≠ Except.ok v) := by
  refine ⟨rfl, rfl, ?_, ?_⟩ <;> intro v h <;>
    simp [AttentionControl.forwardAbstract,
      AttentionControlEdit.replaceCrossAbstract] at h

/-- Witness for C9 at concrete inputs. -/
theorem C9_abstract_raise_witness :
    AttentionControl.forwardAbstract exAttnF true Place.down
        = Except.error PyExc.notImplementedError ∧
      AttentionControlEdit.replaceCrossAbstract exBase3 exAttn4
        = Except.error PyExc.notImplementedError :=
  ⟨(C9_abstract_raise exAttnF true Place.down exBase3 exAttn4).1,
   (C9_abstract_raise exAttnF true Place.down exBase3 exAttn4).2.1⟩

/-- C5: in standard (non-low-resource) mode each interception applies the
per-layer transform only to the second half of the batch axis; entries of
the first half of the returned tensor equal those of the input tensor, for
every per-layer transform, every counter state and every layer call. -/
theorem C5_first_half_untouched
    (forward : TensorF → Bool → Place → TensorF)
    (cur_att_layer : Nat) (num_att_layers : Int) (hsz : Nat)
    (attn : TensorF) (is_cross : Bool) (pl : Place) (b i : Nat)
    (hb : b < hsz / 2) :
    AttentionControl.call forward cur_att_layer num_att_layers hsz attn
      is_cross pl b i = attn b i := by
  unfold AttentionControl.call
  simp [LOW_RESOURCE, num_uncond_att_layers, hb, Int.natCast_nonneg]

/-- Witness for C5: batch axis of size 4, entry (1, 2) in the first half is
returned unchanged. -/
theorem C5_first_half_untouched_witness :
    AttentionControl.call exFwd 0 3 4 exAttnF true Place.down 1 2
      = exAttnF 1 2 :=
  C5_first_half_untouched exFwd 0 3 4 exAttnF true Place.down 1 2 (by decide)

/-- C8: each interception call increments the layer counter; exactly when it
reaches `num_att_layers + num_uncond_att_layers` it resets to zero, the
step counter advances by one, and `between_steps` fires (once); otherwise
the step counter is unchanged and no notification fires. -/
theorem C8_counter_step (s : CtrlCounters) :
    (((s.cur_att_layer : Int) + 1
          = s.num_att_layers + num_uncond_att_layers s.num_att_layers →
        AttentionControl.callCounters s
          = ({ cur_step := s.cur_step + 1, cur_att_layer := 0,
               num_att_layers := s.num_att_layers }, true))) ∧
    (((s.cur_att_layer : Int) + 1
          ≠ s.num_att_layers + num_uncond_att_layers s.num_att_layers →
        AttentionControl.callCounters s
          = ({ cur_step := s.cur_step, cur_att_layer := s.cur_att_layer + 1,
               num_att_layers := s.num_att_layers }, false))) := by
  constructor <;> intro h
  · have h' : ((s.cur_att_layer + 1 : Nat) : Int)
        = s.num_att_layers + num_uncond_att_layers s.num_att_layers := by
      push_cast
      exact h
    simp [AttentionControl.callCounters, h']
  · have h' : ¬ ((s.cur_att_layer + 1 : Nat) : Int)
        = s.num_att_layers + num_uncond_att_layers s.num_att_layers := by
      push_cast
      exact h
    simp [AttentionControl.callCounters, h']
    exact h

/-- Witness for C8: a hit at the threshold (1 + 1 = 2 layers) and a miss
(0 + 1 ≠ 5). -/
theorem C8_counter_step_witness :
    AttentionControl.callCounters ⟨7, 1, 2⟩
        = (⟨8, 0, 2⟩, true) ∧
      AttentionControl.callCounters ⟨7, 0, 5⟩
        = (⟨7, 1, 5⟩, false) :=
  ⟨(C8_counter_step ⟨7, 1, 2⟩).1 (by decide),
   (C8_counter_step ⟨7, 0, 5⟩).2 (by decide)⟩

/-- C7: the step-boundary callback is the identity on the latent when no
local-blend component is attached; when one is attached, positions inside
the unioned thresholded mask keep the edited latent and positions outside
are forced back to the reference latent (batch index 0). -/
theorem C7_step_callback (threshold : Val) (m : Nat → Nat → Val)
    (x_t : Nat → Nat → Val) (b p : Nat) :
    (AttentionControlEdit.step_callback none m x_t = x_t) ∧
    (threshold < m 0 p ∨ threshold < m 1 p →
      AttentionControlEdit.step_callback (some threshold) m x_t b p
        = x_t b p) ∧
    (¬ threshold < m 0 p → ¬ threshold < m 1 p →
      AttentionControlEdit.step_callback (some threshold) m x_t b p
        = x_t 0 p) := by
  refine ⟨rfl, ?_, ?_⟩
  · intro h
    have hm : (decide (threshold < m 0 p) || decide (threshold < m 1 p)) = true := by
      rcases h with h | h <;> simp [h]
    simp only [AttentionControlEdit.step_callback, LocalBlend.call, hm]
    simp
  · intro h0 h1
    have hm : (decide (threshold < m 0 p) || decide (threshold < m 1 p)) = false := by
      simp [h0, h1]
    simp only [AttentionControlEdit.step_callback, LocalBlend.call, hm]
    simp

/-- Witness for C7: threshold 0, a masked position (p = 0, map value 1) and
an unmasked one (p = 1, map value 0), on the edited latent row b = 1. -/
theorem C7_step_callback_witness :
    AttentionControlEdit.step_callback none exMap2 exLatent = exLatent ∧
      AttentionControlEdit.step_callback (some 0) exMap2 exLatent 1 0
        = exLatent 1 0 ∧
      AttentionControlEdit.step_callback (some 0) exMap2 exLatent 1 1
        = exLatent 0 1 :=
  ⟨(C7_step_callback 0 exMap2 exLatent 1 0).1,
   (C7_step_callback 0 exMap2 exLatent 1 0).2.1
     (Or.inl (by decide)),
   (C7_step_callback 0 exMap2 exLatent 1 1).2.2
     (by decide) (by decide)⟩

/-- Cross-attention branch of `AttentionControlEdit.forward`, unfolded for an
edited row `b ≥ 1`. -/
theorem editForward_cross (nsr : Int × Int) (alpha : Nat → Nat → Nat → Val)
    (rc : Tensor3 → Tensor4 → Tensor4) (cur_step qsize : Nat) (attn : Tensor4)
    (b hd p w : Nat) (hb : 1 ≤ b) :
    AttentionControlEdit.forward nsr alpha rc cur_step true qsize attn b hd p w
      = rc (attn 0) (fun i => attn (i + 1)) (b - 1) hd p w
          * alpha cur_step (b - 1) w
        + (1 - alpha cur_step (b - 1) w) * attn b hd p w := by
  have hb0 : ¬ b = 0 := by omega
  have hb1 : b - 1 + 1 = b := by omega
  simp [AttentionControlEdit.forward, hb0, hb1]

/-- Self-attention branch inside the replacement window at coarse
resolution: every edited row receives the reference map. -/
theorem editForward_self_small (nsr : Int × Int) (alpha : Nat → Nat → Nat → Val)
    (rc : Tensor3 → Tensor4 → Tensor4) (cur_step qsize : Nat) (attn : Tensor4)
    (hw : nsr.1 ≤ (cur_step : Int) ∧ (cur_step : Int) < nsr.2)
    (hq : qsize ≤ 16 ^ 2) (b hd p w : Nat) (hb : 1 ≤ b) :
    AttentionControlEdit.forward nsr alpha rc cur_step false qsize attn b hd p w
      = attn 0 hd p w := by
  have hb0 : ¬ b = 0 := by omega
  have hq2 : qsize ≤ 256 := by
    norm_num at hq
    exact hq
  simp [AttentionControlEdit.forward, hw,
    AttentionControlEdit.replace_self_attention, hb0]
  rw [if_pos hq2]

/-- Self-attention branch inside the replacement window at fine resolution:
the tensor passes through unmodified. -/
theorem editForward_self_large (nsr : Int × Int) (alpha : Nat → Nat → Nat → Val)
    (rc : Tensor3 → Tensor4 → Tensor4) (cur_step qsize : Nat) (attn : Tensor4)
    (hw : nsr.1 ≤ (cur_step : Int) ∧ (cur_step : Int) < nsr.2)
    (hq : 16 ^ 2 < qsize) :
    AttentionControlEdit.forward nsr alpha rc cur_step false qsize attn
      = attn := by
  funext b hd p w
  by_cases hb0 : b = 0
  · subst hb0
    simp [AttentionControlEdit.forward, hw]
  · have hb1 : b - 1 + 1 = b := by omega
    have h16 : (16 : Nat) ^ 2 = 256 := by norm_num
    rw [h16] at hq
    have hq2 : ¬ qsize ≤ 256 := by omega
    simp [AttentionControlEdit.forward, hw,
      AttentionControlEdit.replace_self_attention, hb0, hb1]
    rw [if_neg hq2, hb1]

/-- Self-attention outside the replacement window: the tensor passes
through unmodified. -/
theorem editForward_self_outside (nsr : Int × Int)
    (alpha : Nat → Nat → Nat → Val) (rc : Tensor3 → Tensor4 → Tensor4)
    (cur_step qsize : Nat) (attn : Tensor4)
    (hw : ¬ (nsr.1 ≤ (cur_step : Int) ∧ (cur_step : Int) < nsr.2)) :
    AttentionControlEdit.forward nsr alpha rc cur_step false qsize attn
      = attn := by
  unfold AttentionControlEdit.forward
  rw [if_neg]
  intro hor
  rcases hor with hfalse | hwin
  · exact Bool.false_ne_true hfalse
  · exact hw hwin

/-- C1: for every editing strategy, edited self-attention is overwritten by
the reference self-attention exactly when the step lies in the window
`[floor(num_steps*start), floor(num_steps*end))` and the query size is at
most `16**2`; inside the window at a larger size, and outside the window at
every size, self-attention passes through unmodified; a float
`self_replace_steps` is read as the window `(0, float)`. -/
theorem C1_self_attention_policy
    (num_steps : Nat) (s0 s1 : ℚ) (h0 : 0 ≤ s0) (h1 : 0 ≤ s1)
    (alpha : Nat → Nat → Nat → Val) (rc : Tensor3 → Tensor4 → Tensor4)
    (cur_step qsize : Nat) (attn : Tensor4) :
    (∀ f : ℚ, num_self_replace num_steps (Sum.inl f)
        = num_self_replace num_steps (Sum.inr (0, f))) ∧
    num_self_replace num_steps (Sum.inr (s0, s1))
        = (⌊(num_steps : ℚ) * s0⌋, ⌊(num_steps : ℚ) * s1⌋) ∧
    (⌊(num_steps : ℚ) * s0⌋ ≤ (cur_step : Int) ∧
          (cur_step : Int) < ⌊(num_steps : ℚ) * s1⌋ →
        (qsize ≤ 16 ^ 2 →
          ∀ b hd p w, 1 ≤ b →
            AttentionControlEdit.forward
              (num_self_replace num_steps (Sum.inr (s0, s1))) alpha rc
              cur_step false qsize attn b hd p w = attn 0 hd p w) ∧
        (16 ^ 2 < qsize →
          AttentionControlEdit.forward
            (num_self_replace num_steps (Sum.inr (s0, s1))) alpha rc
            cur_step false qsize attn = attn)) ∧
    (¬ (⌊(num_steps : ℚ) * s0⌋ ≤ (cur_step : Int) ∧
          (cur_step : Int) < ⌊(num_steps : ℚ) * s1⌋) →
        AttentionControlEdit.forward
          (num_self_replace num_steps (Sum.inr (s0, s1))) alpha rc
          cur_step false qsize attn = attn) := by
  have e0 : num_self_replace num_steps (Sum.inr (s0, s1))
      = (⌊(num_steps : ℚ) * s0⌋, ⌊(num_steps : ℚ) * s1⌋) := by
    unfold num_self_replace selfReplaceSpecPair pyInt
    rw [if_pos (mul_nonneg (Nat.cast_nonneg _) h0),
      if_pos (mul_nonneg (Nat.cast_nonneg _) h1)]
  refine ⟨fun f => rfl, e0, fun hw => ⟨?_, ?_⟩, fun hnw => ?_⟩
  · intro hq b hd p w hb
    exact editForward_self_small _ alpha rc cur_step qsize attn
      (by rw [e0]; exact hw) hq b hd p w hb
  · intro hq
    exact editForward_self_large _ alpha rc cur_step qsize attn
      (by rw [e0]; exact hw) hq
  · exact editForward_self_outside _ alpha rc cur_step qsize attn
      (by rw [e0]; exact hnw)

/-- Witness for C1: window `(0, 1)` over 10 steps is `[0, 10)`; step 2 with
a coarse map is overwritten by the reference row, step 2 with a fine map
and step 12 at any size pass through. -/
theorem C1_self_attention_policy_witness :
    num_self_replace 10 (Sum.inl (1 : ℚ))
        = num_self_replace 10 (Sum.inr (0, 1)) ∧
      num_self_replace 10 (Sum.inr ((0 : ℚ), (1 : ℚ))) = (0, 10) ∧
      AttentionControlEdit.forward (num_self_replace 10 (Sum.inr (0, 1)))
        exAlphaOne exRC 2 false 256 exAttn4 1 0 0 0 = exAttn4 0 0 0 0 ∧
      AttentionControlEdit.forward (num_self_replace 10 (Sum.inr (0, 1)))
        exAlphaOne exRC 2 false 1024 exAttn4 = exAttn4 ∧
      AttentionControlEdit.forward (num_self_replace 10 (Sum.inr (0, 1)))
        exAlphaOne exRC 12 false 256 exAttn4 = exAttn4 := by
  have h := C1_self_attention_policy 10 0 1 (by decide) (by decide)
    exAlphaOne exRC 2 256 exAttn4
  have h' := C1_self_attention_policy 10 0 1 (by decide) (by decide)
    exAlphaOne exRC 2 1024 exAttn4
  have h'' := C1_self_attention_policy 10 0 1 (by decide) (by decide)
    exAlphaOne exRC 12 256 exAttn4
  refine ⟨h.1 1, ?_, ?_, ?_, ?_⟩
  · rw [h.2.1]
    simp
  · exact (h.2.2.1 (by simp)).1 (by decide) 1 0 0 0 (by decide)
  · exact (h'.2.2.1 (by simp)).2 (by decide)
  · exact h''.2.2.2 (by simp)

/-- C2: the Replace strategy contracts the reference map with the
replacement mapper over the 77-token axis and blends it with the original
edited map by the per-step per-token activation weight, as
`activation * E' + (1 - activation) * E`; with an identity mapper and
activation 1 everywhere the edited cross-attention equals the reference
cross-attention exactly. -/
theorem C2_replace_strategy
    (mapper : Nat → Nat → Nat → Val) (alpha : Nat → Nat → Nat → Val)
    (nsr : Int × Int) (cur_step qsize : Nat) (attn : Tensor4)
    (b hd p n : Nat) (hb : 1 ≤ b) :
    (AttentionControlEdit.forward nsr alpha
        (AttentionReplace.replace_cross_attention mapper) cur_step true qsize
        attn b hd p n
      = alpha cur_step (b - 1) n
            * (∑ w ∈ Finset.range MAX_NUM_WORDS,
                attn 0 hd p w * mapper (b - 1) w n)
          + (1 - alpha cur_step (b - 1) n) * attn b hd p n) ∧
    ((∀ i w k, mapper i w k = if w = k then (1 : Val) else 0) →
      (∀ st i w, alpha st i w = 1) → n < MAX_NUM_WORDS →
      AttentionControlEdit.forward nsr alpha
        (AttentionReplace.replace_cross_attention mapper) cur_step true qsize
        attn b hd p n = attn 0 hd p n) := by
  have hbase := editForward_cross nsr alpha
    (AttentionReplace.replace_cross_attention mapper) cur_step qsize attn
    b hd p n hb
  constructor
  · rw [hbase]
    unfold AttentionReplace.replace_cross_attention
    ring
  · intro hm ha hn
    rw [hbase]
    unfold AttentionReplace.replace_cross_attention
    have hsum : (∑ w ∈ Finset.range MAX_NUM_WORDS,
        attn 0 hd p w * mapper (b - 1) w n) = attn 0 hd p n := by
      have : ∀ w, attn 0 hd p w * mapper (b - 1) w n
          = if w = n then attn 0 hd p w else 0 := by
        intro w
        rw [hm]
        by_cases hwn : w = n <;> simp [hwn]
      rw [Finset.sum_congr rfl fun w _ => this w]
      rw [Finset.sum_ite_eq' (Finset.range MAX_NUM_WORDS) n (attn 0 hd p)]
      simp [Finset.mem_range, hn]
    rw [hsum, ha]
    ring

/-- Witness for C2: identity mapper and all-ones activation at row b = 1
reproduce the reference attention at token 0; the general blend identity at
a concrete input. -/
theorem C2_replace_strategy_witness :
    (AttentionControlEdit.forward (0, 1) exAlphaOne
        (AttentionReplace.replace_cross_attention exIdMapper) 0 true 256
        exAttn4 1 0 0 0
      = exAlphaOne 0 0 0
            * (∑ w ∈ Finset.range MAX_NUM_WORDS,
                exAttn4 0 0 0 w * exIdMapper 0 w 0)
          + (1 - exAlphaOne 0 0 0) * exAttn4 1 0 0 0) ∧
    AttentionControlEdit.forward (0, 1) exAlphaOne
        (AttentionReplace.replace_cross_attention exIdMapper) 0 true 256
        exAttn4 1 0 0 0 = exAttn4 0 0 0 0 := by
  have h := C2_replace_strategy exIdMapper exAlphaOne (0, 1) 0 256 exAttn4
    1 0 0 0 (by decide)
  exact ⟨h.1, h.2 (fun i w k => rfl) (fun st i w => rfl) (by decide)⟩

/-- Folding the equalizer assignments leaves a token position untouched
when no selected word covers it. -/
theorem equalizer_foldl_not_mem (value : Val) (w : Nat) (l : List (List Nat))
    (hl : ∀ inds ∈ l, w ∉ inds) (acc : Nat → Nat → Val) (b : Nat) :
    List.foldl
      (fun eq inds => fun b2 w2 => if w2 ∈ inds then value else eq b2 w2)
      acc l b w = acc b w := by
  induction l generalizing acc with
  | nil => rfl
  | cons ind tl ih =>
    have hind : w ∉ ind := hl ind (List.mem_cons_self ind tl)
    have htl : ∀ inds ∈ tl, w ∉ inds := fun i hi =>
      hl i (List.mem_cons_of_mem _ hi)
    rw [List.foldl_cons, ih htl]
    simp [hind]

/-- Folding the equalizer assignments writes `value` at a token position
covered by some selected word. -/
theorem equalizer_foldl_mem (value : Val) (w : Nat) (l : List (List Nat))
    (hl : ∃ inds ∈ l, w ∈ inds) (acc : Nat → Nat → Val) (b : Nat) :
    List.foldl
      (fun eq inds => fun b2 w2 => if w2 ∈ inds then value else eq b2 w2)
      acc l b w = value := by
  induction l generalizing acc with
  | nil => simp at hl
  | cons ind tl ih =>
    rw [List.foldl_cons]
    by_cases htl : ∃ inds ∈ tl, w ∈ inds
    · exact ih htl _
    · have hind : w ∈ ind := by
        rcases hl with ⟨i, hi, hwi⟩
        rcases List.mem_cons.mp hi with hieq | hmem
        · exact hieq ▸ hwi
        · exact absurd ⟨i, hmem, hwi⟩ htl
      push_neg at htl
      rw [equalizer_foldl_not_mem value w tl htl _ b]
      simp [hind]

/-- C6: Reweight first delegates to the optionally wrapped prior strategy
(broadcasting the reference map when none is attached) and then multiplies
elementwise by the equalizer broadcast over heads and query positions; with
an identity prior and an equalizer assigning 2 on the selected word's token
positions and 1 elsewhere, the output is exactly double the reference
attention on those positions and unchanged elsewhere. -/
theorem C6_reweight_strategy (equalizer : Nat → Nat → Val)
    (prev : Tensor3 → Tensor4 → Tensor4) (word_inds : List (List Nat))
    (attn_base : Tensor3) (att_replace : Tensor4) (b hd p w : Nat) :
    (AttentionReweight.replace_cross_attention equalizer (some prev)
        attn_base att_replace b hd p w
      = prev attn_base att_replace b hd p w * equalizer b w) ∧
    (AttentionReweight.replace_cross_attention equalizer none
        attn_base att_replace b hd p w
      = attn_base hd p w * equalizer b w) ∧
    ((∀ base repl i hd2 p2 w2, prev base repl i hd2 p2 w2 = base hd2 p2 w2) →
      ((∃ inds ∈ word_inds, w ∈ inds) →
        AttentionReweight.replace_cross_attention
          (get_equalizer word_inds 2) (some prev) attn_base att_replace
          b hd p w = 2 * attn_base hd p w) ∧
      ((∀ inds ∈ word_inds, w ∉ inds) →
        AttentionReweight.replace_cross_attention
          (get_equalizer word_inds 2) (some prev) attn_base att_replace
          b hd p w = attn_base hd p w)) := by
  refine ⟨rfl, rfl, fun hid => ⟨?_, ?_⟩⟩
  · intro hmem
    show prev attn_base att_replace b hd p w * get_equalizer word_inds 2 b w
      = 2 * attn_base hd p w
    rw [hid]
    unfold get_equalizer
    rw [equalizer_foldl_mem 2 w word_inds hmem _ b]
    ring
  · intro hnot
    show prev attn_base att_replace b hd p w * get_equalizer word_inds 2 b w
      = attn_base hd p w
    rw [hid]
    unfold get_equalizer
    rw [equalizer_foldl_not_mem 2 w word_inds hnot _ b]
    ring

/-- Witness for C6: selected word occupying token positions 2 and 3; the
output is doubled at position 2 and unchanged at position 5. -/
theorem C6_reweight_strategy_witness :
    (AttentionReweight.replace_cross_attention
        (get_equalizer [[2, 3]] 2) (some exIdPrior) exBase3 exAttn4 0 1 1 2
      = 2 * exBase3 1 1 2) ∧
    (AttentionReweight.replace_cross_attention
        (get_equalizer [[2, 3]] 2) (some exIdPrior) exBase3 exAttn4 0 1 1 5
      = exBase3 1 1 5) ∧
    (AttentionReweight.replace_cross_attention
        (get_equalizer [[2, 3]] 2) none exBase3 exAttn4 0 1 1 5
      = exBase3 1 1 5 * get_equalizer [[2, 3]] 2 0 5) := by
  refine ⟨?_, ?_, ?_⟩
  · exact ((C6_reweight_strategy (get_equalizer [[2, 3]] 2) exIdPrior
      [[2, 3]] exBase3 exAttn4 0 1 1 2).2.2
        (fun base repl i hd2 p2 w2 => rfl)).1 ⟨[2, 3], by decide⟩
  · exact ((C6_reweight_strategy (get_equalizer [[2, 3]] 2) exIdPrior
      [[2, 3]] exBase3 exAttn4 0 1 1 5).2.2
        (fun base repl i hd2 p2 w2 => rfl)).2 (by decide)
  · exact (C6_reweight_strategy (get_equalizer [[2, 3]] 2) exIdPrior
      [[2, 3]] exBase3 exAttn4 0 1 1 5).2.1

/-- Members of a zipped elementwise sum come from members of the two
summand lists. -/
theorem mem_zipWith_tensorAdd (t : StoreTensor) (l1 l2 : List StoreTensor)
    (ht : t ∈ List.zipWith tensorAdd l1 l2) :
    ∃ a ∈ l1, ∃ b ∈ l2, t = tensorAdd a b := by
  induction l1 generalizing l2 with
  | nil => simp at ht
  | cons a tl ih =>
    cases l2 with
    | nil => simp at ht
    | cons b tl2 =>
      rw [List.zipWith_cons_cons] at ht
      rcases List.mem_cons.mp ht with heq | hmem
      · exact ⟨a, List.mem_cons_self _ _, b, List.mem_cons_self _ _, heq⟩
      · rcases ih tl2 hmem with ⟨a2, ha2, b2, hb2, heq⟩
        exact ⟨a2, List.mem_cons_of_mem _ ha2, b2,
          List.mem_cons_of_mem _ hb2, heq⟩

/-- `AttentionStore.forward` never touches the cumulative store or the
counters. -/
theorem forward_fields (s : StoreState) (attn : StoreTensor) (ic : Bool)
    (pl : Place) :
    (AttentionStore.forward s attn ic pl).attention_store
        = s.attention_store ∧
      (AttentionStore.forward s attn ic pl).cur_step = s.cur_step ∧
      (AttentionStore.forward s attn ic pl).cur_att_layer = s.cur_att_layer ∧
      (AttentionStore.forward s attn ic pl).num_att_layers
        = s.num_att_layers := by
  unfold AttentionStore.forward
  split <;> simp

/-- `AttentionStore.forward` keeps every step-buffer tensor within the
`32**2` bound when the buffer already was. -/
theorem forward_bounded (s : StoreState) (attn : StoreTensor) (ic : Bool)
    (pl : Place)
    (h1 : ∀ pl2 ic2 t, t ∈ s.step_store pl2 ic2 → t.shape1 ≤ 32 ^ 2) :
    ∀ pl2 ic2 t,
      t ∈ (AttentionStore.forward s attn ic pl).step_store pl2 ic2 →
        t.shape1 ≤ 32 ^ 2 := by
  intro pl2 ic2 t ht
  unfold AttentionStore.forward at ht
  by_cases hsh : attn.shape1 ≤ 32 ^ 2
  · rw [if_pos hsh] at ht
    simp only at ht
    by_cases hkey : pl2 = pl ∧ ic2 = ic
    · rw [if_pos hkey] at ht
      rcases List.mem_append.mp ht with hmem | hone
      · exact h1 pl2 ic2 t hmem
      · rw [List.mem_singleton.mp hone]
        exact hsh
    · rw [if_neg hkey] at ht
      exact h1 pl2 ic2 t ht
  · rw [if_neg hsh] at ht
    exact h1 pl2 ic2 t ht

/-- `AttentionStore.between_steps` keeps every cumulative tensor within the
`32**2` bound when both stores already were. -/
theorem between_steps_bounded (s : StoreState)
    (h1 : ∀ pl ic t, t ∈ s.step_store pl ic → t.shape1 ≤ 32 ^ 2)
    (h2 : ∀ acc, s.attention_store = some acc →
      ∀ pl ic t, t ∈ acc pl ic → t.shape1 ≤ 32 ^ 2) :
    ∀ acc, (AttentionStore.between_steps s).attention_store = some acc →
      ∀ pl ic t, t ∈ acc pl ic → t.shape1 ≤ 32 ^ 2 := by
  intro acc hacc pl ic t ht
  cases hs : s.attention_store with
  | none =>
    simp only [AttentionStore.between_steps, hs, Option.some.injEq] at hacc
    rw [← hacc] at ht
    exact h1 pl ic t ht
  | some acc0 =>
    simp only [AttentionStore.between_steps, hs, Option.some.injEq] at hacc
    rw [← hacc] at ht
    rcases mem_zipWith_tensorAdd t _ _ ht with ⟨a, ha, b, hb, heq⟩
    rw [heq]
    exact h2 acc0 hs pl ic a ha

/-- In standard mode the unconditional-layer offset is zero, so the gate of
`__call__` always passes and one interception is a `forward` followed by
the counter-and-boundary logic. -/
theorem call_eq_std (s : StoreState) (attn : StoreTensor) (ic : Bool)
    (pl : Place) :
    AttentionStore.call s attn ic pl
      = if (((AttentionStore.forward s attn ic pl).cur_att_layer + 1 : Nat) : Int)
            = (AttentionStore.forward s attn ic pl).num_att_layers
              + num_uncond_att_layers
                  (AttentionStore.forward s attn ic pl).num_att_layers
        then AttentionStore.between_steps
          { AttentionStore.forward s attn ic pl with
              cur_att_layer := 0,
              cur_step := (AttentionStore.forward s attn ic pl).cur_step + 1 }
        else { AttentionStore.forward s attn ic pl with
            cur_att_layer :=
              (AttentionStore.forward s attn ic pl).cur_att_layer + 1 } := by
  have hgate : (s.cur_att_layer : Int)
      ≥ num_uncond_att_layers s.num_att_layers := by
    simp [num_uncond_att_layers, LOW_RESOURCE, Int.natCast_nonneg]
  unfold AttentionStore.call
  rw [if_pos hgate]

/-- Every reachable `AttentionStore` state keeps all buffered and
accumulated tensors within the `32**2` bound. -/
theorem reachable_bounded (s : StoreState) (hs : Reachable s) :
    (∀ pl ic t, t ∈ s.step_store pl ic → t.shape1 ≤ 32 ^ 2) ∧
    (∀ acc, s.attention_store = some acc →
      ∀ pl ic t, t ∈ acc pl ic → t.shape1 ≤ 32 ^ 2) := by
  induction hs with
  | init n =>
    constructor
    · intro pl ic t ht
      simp [initState, get_empty_store] at ht
    · intro acc hacc
      simp [initState] at hacc
  | call s attn ic pl hr ih =>
    rcases ih with ⟨ih1, ih2⟩
    have hf1 := forward_bounded s attn ic pl ih1
    have hf2 : ∀ acc,
        (AttentionStore.forward s attn ic pl).attention_store = some acc →
        ∀ pl2 ic2 t, t ∈ acc pl2 ic2 → t.shape1 ≤ 32 ^ 2 := by
      intro acc hacc
      rw [(forward_fields s attn ic pl).1] at hacc
      exact ih2 acc hacc
    rw [call_eq_std]
    split
    · constructor
      · intro pl2 ic2 t ht
        simp only [AttentionStore.between_steps] at ht
        simp [get_empty_store] at ht
      · refine between_steps_bounded _ ?_ ?_
        · exact fun pl2 ic2 t ht => hf1 pl2 ic2 t ht
        · exact fun acc hacc => hf2 acc hacc
    · exact ⟨fun pl2 ic2 t ht => hf1 pl2 ic2 t ht,
        fun acc hacc => hf2 acc hacc⟩
  | reset s hr ih =>
    constructor
    · intro pl ic t ht
      simp [AttentionStore.reset, get_empty_store] at ht
    · intro acc hacc
      simp [AttentionStore.reset] at hacc

/-- In every reachable state the cumulative store is populated only after
at least one completed step: `between_steps` first fills it strictly after
the step counter has been incremented. -/
theorem reachable_step_pos (s : StoreState) (hs : Reachable s) :
    ∀ acc, s.attention_store = some acc → 1 ≤ s.cur_step := by
  induction hs with
  | init n =>
    intro acc hacc
    simp [initState] at hacc
  | call s attn ic pl hr ih =>
    intro acc hacc
    rw [call_eq_std] at hacc ⊢
    by_cases hthr : (((AttentionStore.forward s attn ic pl).cur_att_layer
          + 1 : Nat) : Int)
        = (AttentionStore.forward s attn ic pl).num_att_layers
          + num_uncond_att_layers
              (AttentionStore.forward s attn ic pl).num_att_layers
    · rw [if_pos hthr]
      simp [AttentionStore.between_steps]
    · rw [if_neg hthr] at hacc ⊢
      dsimp only at hacc ⊢
      rw [(forward_fields s attn ic pl).1] at hacc
      rw [(forward_fields s attn ic pl).2.1]
      exact ih acc hacc
  | reset s hr ih =>
    intro acc hacc
    simp [AttentionStore.reset] at hacc

/-- C4: a tensor whose checked axis exceeds `32**2` is never appended by
`forward`, and after any reachable run no such tensor is present in either
the per-step buffer or the cumulative store. -/
theorem C4_memory_bound (s : StoreState) (hs : Reachable s) :
    (∀ attn ic pl, 32 ^ 2 < attn.shape1 →
      AttentionStore.forward s attn ic pl = s) ∧
    (∀ pl ic t, t ∈ s.step_store pl ic → t.shape1 ≤ 32 ^ 2) ∧
    (∀ acc, s.attention_store = some acc →
      ∀ pl ic t, t ∈ acc pl ic → t.shape1 ≤ 32 ^ 2) := by
  refine ⟨?_, (reachable_bounded s hs).1, (reachable_bounded s hs).2⟩
  intro attn ic pl hsh
  unfold AttentionStore.forward
  rw [if_neg (not_le.mpr hsh)]

/-- Witness for C4 at a state after one interception recording a small
tensor: an oversized tensor (checked axis 4096) is rejected by `forward`
and the stores stay bounded. -/
theorem C4_memory_bound_witness :
    (∀ attn ic pl, 32 ^ 2 < attn.shape1 →
      AttentionStore.forward
        (AttentionStore.call (initState 3) ⟨9, fun i => (i : Val)⟩ true
          Place.down) attn ic pl
        = AttentionStore.call (initState 3) ⟨9, fun i => (i : Val)⟩ true
            Place.down) ∧
    (∀ pl ic t,
      t ∈ (AttentionStore.call (initState 3) ⟨9, fun i => (i : Val)⟩ true
          Place.down).step_store pl ic → t.shape1 ≤ 32 ^ 2) := by
  have h := C4_memory_bound
    (AttentionStore.call (initState 3) ⟨9, fun i => (i : Val)⟩ true Place.down)
    (Reachable.call _ _ _ _ (Reachable.init 3))
  exact ⟨h.1, h.2.1⟩

/-- C10: reading the averaged store never divides by zero — the cumulative
store is nonempty only once the step counter is at least one, and before
any completed step the average accessor returns the empty mapping. -/
theorem C10_average_safe (s : StoreState) (hs : Reachable s) :
    (∀ acc, s.attention_store = some acc → 1 ≤ s.cur_step) ∧
    (s.cur_step = 0 → AttentionStore.get_average_attention s = none) := by
  refine ⟨reachable_step_pos s hs, ?_⟩
  intro hz
  cases hacc : s.attention_store with
  | none => simp [AttentionStore.get_average_attention, hacc]
  | some acc =>
    have := reachable_step_pos s hs acc hacc
    omega

/-- Witness for C10 at the freshly registered initial state: the average
accessor yields the empty mapping. -/
theorem C10_average_safe_witness :
    AttentionStore.get_average_attention (initState (-1)) = none :=
  (C10_average_safe (initState (-1)) (Reachable.init (-1))).2 rfl

/-- Adding the same recorded sequence once more to an `m`-fold cumulative
sum yields the `(m+1)`-fold cumulative sum. -/
theorem forall2_scaled_add (m : Nat) (l r : List StoreTensor)
    (h : List.Forall₂ (TensorScaled m) l r) :
    List.Forall₂ (TensorScaled (m + 1)) (List.zipWith tensorAdd l r) r := by
  induction h with
  | nil => simp
  | cons hab htl ih =>
    rw [List.zipWith_cons_cons]
    refine List.Forall₂.cons ⟨hab.1, ?_⟩ ih
    intro i
    simp only [tensorAdd, hab.2 i]
    push_cast
    ring

/-- After `m + 1` recorded steps from the freshly registered state, the
step counter reads `m + 1` and the cumulative store holds exactly the
`(m+1)`-fold elementwise sum of the recorded sequences. -/
theorem iterRecord_inv (rec : StoreMap) (n : Int) (m : Nat) :
    (iterRecord rec (m + 1) (initState n)).cur_step = m + 1 ∧
      ∃ acc, (iterRecord rec (m + 1) (initState n)).attention_store
          = some acc ∧
        ∀ pl ic, List.Forall₂ (TensorScaled (m + 1)) (acc pl ic)
          (rec pl ic) := by
  induction m with
  | zero =>
    refine ⟨rfl, rec, rfl, ?_⟩
    intro pl ic
    refine List.forall₂_same.mpr ?_
    intro t ht
    refine ⟨rfl, ?_⟩
    intro i
    simp
  | succ k ih =>
    rcases ih with ⟨hstep, acc, hacc, hforall⟩
    constructor
    · show (recordStep rec (iterRecord rec (k + 1) (initState n))).cur_step
        = k + 1 + 1
      simp [recordStep, AttentionStore.between_steps, hstep]
    · refine ⟨fun pl ic =>
        List.zipWith tensorAdd (acc pl ic) (rec pl ic), ?_, ?_⟩
      · show (recordStep rec
            (iterRecord rec (k + 1) (initState n))).attention_store = _
        simp [recordStep, AttentionStore.between_steps, hacc]
      · intro pl ic
        exact forall2_scaled_add (k + 1) _ _ (hforall pl ic)

/-- C3: recording the same sequences at every one of `S ≥ 1` completed
steps and then reading the averaged store returns exactly the recorded
tensors, elementwise and with their shapes, at every key. -/
theorem C3_accumulator_roundtrip (rec : StoreMap) (n : Int) (S : Nat)
    (hS : 1 ≤ S) :
    ∃ avg, AttentionStore.get_average_attention
          (iterRecord rec S (initState n)) = some avg ∧
      ∀ pl ic, List.Forall₂
        (fun a b => a.shape1 = b.shape1 ∧ ∀ i, a.val i = b.val i)
        (avg pl ic) (rec pl ic) := by
  obtain ⟨m, rfl⟩ : ∃ m, S = m + 1 := ⟨S - 1, by omega⟩
  obtain ⟨hstep, acc, hacc, hforall⟩ := iterRecord_inv rec n m
  have havg : AttentionStore.get_average_attention
      (iterRecord rec (m + 1) (initState n))
      = some (fun pl ic => (acc pl ic).map
          (fun t => ⟨t.shape1, fun i => t.val i / ((m + 1 : Nat) : Val)⟩)) := by
    simp only [AttentionStore.get_average_attention, hacc, hstep]
  refine ⟨_, havg, ?_⟩
  intro pl ic
  rw [List.forall₂_map_left_iff]
  refine List.Forall₂.imp ?_ (hforall pl ic)
  intro a b hab
  refine ⟨hab.1, ?_⟩
  intro i
  simp only [hab.2 i]
  exact mul_div_cancel_left₀ (b.val i)
    (Nat.cast_ne_zero.mpr (Nat.succ_ne_zero m))

/-- Witness for C3: two steps each recording one small tensor at the
`down_cross` key average back to that tensor. -/
theorem C3_accumulator_roundtrip_witness :
    ∃ avg, AttentionStore.get_average_attention
          (iterRecord exRec 2 (initState (-1))) = some avg ∧
      ∀ pl ic, List.Forall₂
        (fun a b => a.shape1 = b.shape1 ∧ ∀ i, a.val i = b.val i)
        (avg pl ic) (exRec pl ic) :=
  C3_accumulator_roundtrip exRec (-1) 2 (by decide)
